import Mathlib

/-!
Verification development for the Axelar Interchain Token Service dashboard
repository.  The Python pages are shallowly embedded: pandas/dataframe column
operations become list operations over explicit record structures, nullable
cells become `Option`, numeric cells become `ℚ` (or `ℤ`/`ℕ` where the source
coerces to integers), and fallible code returns `Except`/`Option`.  The pandas
row-wise behaviour of a frame-level column access (`name in df.columns`) is
modelled per record by field presence, which coincides with the frame view on
the records the API actually returns (a column exists exactly when some record
carries the field, and absent cells are NaN, i.e. `none`).
-/

namespace ITS

/-! ## Python truthiness and `or`-chains over numeric cells

`pages/3_💎ITS_Token_Monitoring.py`, `extract_fee_cell`:

    def extract_fee_cell(x):
        if isinstance(x, dict):
            return x.get("base_fee_usd") or x.get("express_fee_usd")
                   or x.get("express_fee") or x.get("fee") or None
        return None

A missing key yields `None` (falsy); a numeric `0` is also falsy in Python, so
`or` falls through it. -/

/-- Python truthiness of an optional numeric cell: `None` and `0` are falsy. -/
def pyTruthyNum : Option ℚ → Bool
  | none => false
  | some v => v != 0

/-- Python `a or b` on optional numeric values: returns `a` if truthy else `b`. -/
def pyOr (a b : Option ℚ) : Option ℚ :=
  if pyTruthyNum a then a else b

/-- The `fees` sub-object of a GMP record; every key may be absent. -/
structure FeesObj where
  base_fee_usd : Option ℚ
  express_fee_usd : Option ℚ
  express_fee : Option ℚ
  fee : Option ℚ
deriving DecidableEq

/-- `extract_fee_cell` from `3_💎ITS_Token_Monitoring.py` (lines 94-97).
The argument is `none` when the cell is not a dict (NaN or other shape). -/
def extract_fee_cell (x : Option FeesObj) : Option ℚ :=
  match x with
  | some f => pyOr f.base_fee_usd (pyOr f.express_fee_usd (pyOr f.express_fee (pyOr f.fee none)))
  | none => none

/-- Spec-side reading of claim C1: the first non-null candidate wins
(`base_fee_usd`, else `express_fee_usd`, else the computed gas product),
where a present `0` still wins over later candidates. -/
def specFirstNonNull : List (Option ℚ) → Option ℚ
  | [] => none
  | none :: t => specFirstNonNull t
  | some v :: _ => some v

/-- Spec-side description of what the code actually computes: the first
candidate that is present AND non-zero (Python truthiness), else null. -/
def firstPresentNonzero : List (Option ℚ) → Option ℚ
  | [] => none
  | none :: t => firstPresentNonzero t
  | some v :: t => if v = 0 then firstPresentNonzero t else some v

/-- Optional product: the SQL expression
`(data:gas:gas_used_amount)*(data:gas_price_rate:source_token.token_price.usd)`
is NULL as soon as either factor is NULL. -/
def optMul (a b : Option ℚ) : Option ℚ :=
  match a, b with
  | some x, some y => some (x * y)
  | _, _ => none

/-- SQL `COALESCE(a, b)`. -/
def coalesce2 (a b : Option ℚ) : Option ℚ :=
  match a with
  | some v => some v
  | none => b

/-- Fee column of `load_transfer_table` in `4_🔎Monitoring_ITS_Tokens.py`
(lines 389-392): `COALESCE(gas_used_amount * token_price_usd, express_fee_usd)`
— the computed gas product comes FIRST here, and there is no `base_fee_usd`
candidate. -/
def sqlTransferFee (gas_used price express : Option ℚ) : Option ℚ :=
  coalesce2 (optMul gas_used price) express

/-- The candidate list consulted by `extract_fee_cell`. -/
def feeCandidates (f : FeesObj) : List (Option ℚ) :=
  [f.base_fee_usd, f.express_fee_usd, f.express_fee, f.fee]

/-- C1 counterexample input: `base_fee_usd` present and equal to `0`,
`express_fee_usd = 5`. -/
def c1Fees : FeesObj := ⟨some 0, some 5, none, none⟩

/-- C1 is falsified at `c1Fees`: the claim mandates that the present candidate
`base_fee_usd = 0` wins (first NON-NULL), but the code's Python `or`-chain
treats `0` as falsy and returns `express_fee_usd = 5`. -/
theorem c1_fee_zero_counterexample :
    extract_fee_cell (some c1Fees) = some 5 ∧
    specFirstNonNull (feeCandidates c1Fees) = some 0 ∧
    (some (5 : ℚ) ≠ some (0 : ℚ)) := by
  refine ⟨rfl, rfl, by decide⟩

/-- C1 amended: `extract_fee_cell` returns the first candidate, in the order
`base_fee_usd`, `express_fee_usd`, `express_fee`, `fee`, that is present and
non-zero (a present candidate equal to `0` is skipped, exactly like an absent
one); if no candidate qualifies the fee is null.  Candidates are never summed.
No gas-based product is consulted there; the SQL pages instead compute
`COALESCE(gas_used_amount * token_price_usd, express_fee_usd)`, i.e. the gas
product takes precedence and `base_fee_usd` is not a candidate. -/
theorem c1_fee_amended :
    (∀ f : FeesObj, extract_fee_cell (some f) = firstPresentNonzero (feeCandidates f)) ∧
    extract_fee_cell none = none ∧
    (∀ g p e : Option ℚ,
      sqlTransferFee g p e =
        match g, p with
        | some x, some y => some (x * y)
        | _, _ => e) := by
  refine ⟨?_, rfl, ?_⟩
  · intro f
    obtain ⟨b, e1, e2, fe⟩ := f
    simp only [extract_fee_cell, feeCandidates, firstPresentNonzero, pyOr, pyTruthyNum]
    rcases b with _ | vb <;> rcases e1 with _ | v1 <;> rcases e2 with _ | v2 <;>
      rcases fe with _ | vf <;> simp [firstPresentNonzero]
  · intro g p e
    rcases g with _ | x <;> rcases p with _ | y <;> rcases e with _ | z <;> rfl

/-! ## Timestamp unit inference (`parse_timestamp_col`)

`4_🔎Monitoring_ITS_Tokens.py` lines 121-146 and `5_📖test.py` lines 72-104:

    if maxv > 1e18: unit = 'ns'
    elif maxv > 1e15: unit = 'us'
    elif maxv > 1e12: unit = 'ms'
    elif maxv > 1e9: unit = 's'
    else: unit = 's'
-/

/-- The pandas unit chosen by the magnitude heuristic. -/
inductive TsUnit | s | ms | us | ns
deriving DecidableEq

/-- Unit inference from magnitude, exactly the branch structure of
`parse_timestamp_col` (the `> 1e9` branch and the fallback both pick seconds). -/
def inferUnit (v : ℚ) : TsUnit :=
  if v > 10 ^ 18 then .ns
  else if v > 10 ^ 15 then .us
  else if v > 10 ^ 12 then .ms
  else if v > 10 ^ 9 then .s
  else .s

/-- Nanoseconds represented by one tick of each unit (what
`pd.to_datetime(value, unit=u)` multiplies by). -/
def nsPerUnit : TsUnit → ℕ
  | .s => 10 ^ 9
  | .ms => 10 ^ 6
  | .us => 10 ^ 3
  | .ns => 1

/-- The UTC instant (in nanoseconds since the epoch) that
`parse_timestamp_col` assigns to a numeric timestamp value. -/
def inferredInstantNs (v : ℚ) : ℚ :=
  v * nsPerUnit (inferUnit v)

/-- C2: for every integral instant `t` (seconds since the epoch) in the range
where each representation falls in its own magnitude band
(`10^9 < t ≤ 10^12`, i.e. from 2001 to far beyond any realistic date), the
inferred unit reproduces the same UTC instant whether the raw value is given
in seconds, milliseconds, microseconds, or nanoseconds. -/
theorem c2_timestamp_unit_roundtrip (t : ℕ) (h1 : 10 ^ 9 < t) (h2 : t ≤ 10 ^ 12) :
    inferredInstantNs (t : ℚ) = t * 10 ^ 9 ∧
    inferredInstantNs ((10 ^ 3 * t : ℕ) : ℚ) = t * 10 ^ 9 ∧
    inferredInstantNs ((10 ^ 6 * t : ℕ) : ℚ) = t * 10 ^ 9 ∧
    inferredInstantNs ((10 ^ 9 * t : ℕ) : ℚ) = t * 10 ^ 9 := by
  have hq1 : (10 : ℚ) ^ 9 < (t : ℚ) := by exact_mod_cast h1
  have hq2 : (t : ℚ) ≤ 10 ^ 12 := by exact_mod_cast h2
  have hpos : (0 : ℚ) < (t : ℚ) := lt_trans (by norm_num) hq1
  refine ⟨?_, ?_, ?_, ?_⟩
  · have hu : inferUnit (t : ℚ) = .s := by
      unfold inferUnit
      rw [if_neg (by nlinarith), if_neg (by nlinarith), if_neg (by nlinarith), if_pos hq1]
    rw [inferredInstantNs, hu]
    push_cast [nsPerUnit]
    ring
  · have hu : inferUnit ((10 ^ 3 * t : ℕ) : ℚ) = .ms := by
      unfold inferUnit
      push_cast
      rw [if_neg (by nlinarith), if_neg (by nlinarith), if_pos (by nlinarith)]
    rw [inferredInstantNs, hu]
    push_cast [nsPerUnit]
    ring
  · have hu : inferUnit ((10 ^ 6 * t : ℕ) : ℚ) = .us := by
      unfold inferUnit
      push_cast
      rw [if_neg (by nlinarith), if_pos (by nlinarith)]
    rw [inferredInstantNs, hu]
    push_cast [nsPerUnit]
    ring
  · have hu : inferUnit ((10 ^ 9 * t : ℕ) : ℚ) = .ns := by
      unfold inferUnit
      push_cast
      rw [if_pos (by nlinarith)]
    rw [inferredInstantNs, hu]
    push_cast [nsPerUnit]
    ring

/-- Witness for C2 at the concrete instant `t = 2000000000` s (May 2033). -/
theorem c2_timestamp_unit_roundtrip_witness :
    10 ^ 9 < 2000000000 ∧ 2000000000 ≤ 10 ^ 12 ∧
    inferredInstantNs ((2000000000 : ℕ) : ℚ) = 2000000000 * 10 ^ 9 := by
  refine ⟨by norm_num, by norm_num, ?_⟩
  exact (c2_timestamp_unit_roundtrip 2000000000 (by norm_num) (by norm_num)).1

/-! ## Generic facts about list group-by aggregation

pandas `df.groupby(k).agg(...)` is embedded as: take the distinct key values
of the rows (`(rows.map k).dedup`) and map each key to the aggregate of the
rows having that key (`rows.filter`).  The lemmas below are the partition
facts these embeddings need. -/

section ListAgg

variable {α β κ M : Type} [DecidableEq κ] [AddCommMonoid M]

lemma sum_map_add_distrib (l : List α) (u v : α → M) :
    (l.map (fun a => u a + v a)).sum = (l.map u).sum + (l.map v).sum := by
  induction l with
  | nil => simp
  | cons a t ih => simp only [List.map_cons, List.sum_cons, ih]; abel

lemma sum_ite_single {D : List κ} (hD : D.Nodup) {x : κ} (hx : x ∈ D) (c : M) :
    (D.map (fun q => if x = q then c else 0)).sum = c := by
  induction D with
  | nil => cases hx
  | cons a t ih =>
    rcases List.nodup_cons.mp hD with ⟨ha, ht⟩
    rcases List.mem_cons.mp hx with rfl | hx2
    · have hz : (t.map (fun q => if x = q then c else 0)).sum = 0 := by
        apply List.sum_eq_zero
        intro y hy
        rcases List.mem_map.mp hy with ⟨q, hq, rfl⟩
        rw [if_neg]
        rintro rfl
        exact ha hq
      simp only [List.map_cons, List.sum_cons]
      rw [hz, add_zero]
      simp
    · have hne : x ≠ a := by rintro rfl; exact ha hx2
      simp only [List.map_cons, List.sum_cons, if_neg hne, zero_add]
      exact ih ht hx2

lemma filter_key_eq_nil {l : List α} {g : α → κ} {q : κ} (h : q ∉ l.map g) :
    l.filter (fun a => g a = q) = [] := by
  rw [List.filter_eq_nil_iff]
  intro a ha hq
  exact h (List.mem_map.mpr ⟨a, ha, by simpa using hq⟩)

lemma filter_cons_key (a : α) (t : List α) (g : α → κ) (f : α → M) (q : κ) :
    (((a :: t).filter (fun x => g x = q)).map f).sum
      = (if g a = q then f a else 0) + ((t.filter (fun x => g x = q)).map f).sum := by
  by_cases h : g a = q <;> simp [List.filter_cons, h]

/-- Partition of a list sum over the fibers of a key function: summing the
per-group totals over the distinct keys recovers the global total. -/
lemma sum_fiber (g : α → κ) (f : α → M) (l : List α) :
    ((l.map g).dedup.map (fun q => ((l.filter (fun a => g a = q)).map f).sum)).sum
      = (l.map f).sum := by
  induction l with
  | nil => simp
  | cons a t ih =>
    by_cases hmem : g a ∈ t.map g
    · rw [List.map_cons, List.dedup_cons_of_mem hmem]
      rw [List.map_congr_left (fun q _ => filter_cons_key a t g f q)]
      rw [sum_map_add_distrib, ih]
      rw [sum_ite_single (List.nodup_dedup _) (List.mem_dedup.mpr hmem) (f a)]
      simp
    · have hcongr : ∀ q ∈ (t.map g).dedup,
          (((a :: t).filter (fun x => g x = q)).map f).sum
            = ((t.filter (fun x => g x = q)).map f).sum := by
        intro q hq
        rw [filter_cons_key a t g f q, if_neg, zero_add]
        rintro rfl
        exact hmem (List.mem_dedup.mp hq)
      rw [List.map_cons, List.dedup_cons_of_not_mem hmem, List.map_cons, List.sum_cons]
      rw [filter_cons_key a t g f (g a), if_pos rfl]
      rw [List.map_congr_left hcongr, ih]
      simp only [filter_key_eq_nil hmem, List.map_nil, List.sum_nil, add_zero,
        List.map_cons, List.sum_cons]

/-- `dedup` commutes with `filter`. -/
lemma dedup_filter [DecidableEq α] (p : α → Bool) (l : List α) :
    l.dedup.filter p = (l.filter p).dedup := by
  induction l with
  | nil => rfl
  | cons a t ih =>
    by_cases hm : a ∈ t
    · rw [List.dedup_cons_of_mem hm, List.filter_cons]
      by_cases hp : p a
      · rw [if_pos hp, List.dedup_cons_of_mem (List.mem_filter.mpr ⟨hm, hp⟩), ih]
      · rw [if_neg hp, ih]
    · rw [List.dedup_cons_of_not_mem hm, List.filter_cons, List.filter_cons]
      by_cases hp : p a
      · rw [if_pos hp, if_pos hp]
        rw [List.dedup_cons_of_not_mem (fun hc => hm (List.mem_filter.mp hc).1), ih]
      · rw [if_neg hp, if_neg hp, ih]

/-- `dedup` commutes with mapping an injective function. -/
lemma dedup_map_of_injective {f : α → β} [DecidableEq α] [DecidableEq β]
    (hf : Function.Injective f) (l : List α) :
    (l.map f).dedup = l.dedup.map f := by
  induction l with
  | nil => rfl
  | cons a t ih =>
    by_cases hm : a ∈ t
    · rw [List.map_cons, List.dedup_cons_of_mem (List.mem_map_of_mem f hm),
        List.dedup_cons_of_mem hm, ih]
    · have hfm : f a ∉ t.map f := by
        intro hc
        rcases List.mem_map.mp hc with ⟨x, hx, he⟩
        exact hm (hf he ▸ hx)
      rw [List.map_cons, List.dedup_cons_of_not_mem hfm,
        List.dedup_cons_of_not_mem hm, List.map_cons, ih]

/-- Counting version of `sum_fiber` over any duplicate-free key list covering
the image: the fiber sizes add up to the length. -/
lemma sum_counts_eq_length {D : List κ} (hD : D.Nodup) {L : List β} {g : β → κ}
    (h : ∀ b ∈ L, g b ∈ D) :
    (D.map (fun p => (L.filter (fun b => g b = p)).length)).sum = L.length := by
  induction L with
  | nil => simp
  | cons b t ih =>
    have hsplit : ∀ p ∈ D, ((b :: t).filter (fun x => g x = p)).length
        = (if g b = p then 1 else 0) + (t.filter (fun x => g x = p)).length := by
      intro p _
      by_cases hp : g b = p
      · simp [List.filter_cons, hp]
        omega
      · simp [List.filter_cons, hp]
    rw [List.map_congr_left hsplit, sum_map_add_distrib,
      sum_ite_single hD (h b (List.mem_cons_self b t)) 1,
      ih (fun x hx => h x (List.mem_cons_of_mem _ hx))]
    simp [Nat.add_comm]

/-- Deduplicated image is at most as long as the deduplicated source. -/
lemma dedup_length_map_le [DecidableEq α] [DecidableEq β] (f : α → β) (l : List α) :
    (l.map f).dedup.length ≤ l.dedup.length := by
  induction l with
  | nil => simp
  | cons a t ih =>
    by_cases hm : a ∈ t
    · rw [List.map_cons, List.dedup_cons_of_mem (List.mem_map_of_mem f hm),
        List.dedup_cons_of_mem hm]
      exact ih
    · rw [List.dedup_cons_of_not_mem hm, List.map_cons, List.length_cons]
      by_cases hfm : f a ∈ t.map f
      · rw [List.dedup_cons_of_mem hfm]
        exact Nat.le_succ_of_le ih
      · rw [List.dedup_cons_of_not_mem hfm, List.length_cons]
        exact Nat.succ_le_succ ih

/-- Summing an option list while skipping nulls is summing the defaulted map
(additive identity): the NaN-skipping `sum` of pandas. -/
lemma filterMap_id_sum (l : List (Option M)) :
    (l.filterMap id).sum = (l.map (fun o => o.getD 0)).sum := by
  induction l with
  | nil => rfl
  | cons o t ih => cases o <;> simp [List.filterMap_cons, ih]

end ListAgg

/-! ## Normalized rows and the aggregations of `3_💎ITS_Token_Monitoring.py`

A `GRow` is one row of the dataframe after `preprocess`: canonical columns
`period` (already truncated to the selected timeframe; its identity is all the
aggregations use, so it is an abstract `ℕ` key), `path`, the chain columns,
`sourceAddress`, and the numeric columns, each nullable. -/

structure GRow where
  period : ℕ
  path : String
  sourceChain : Option String
  destinationChain : Option String
  sourceAddress : Option String
  tx_amount : Option ℚ
  value : Option ℚ
  fee : Option ℚ
deriving DecidableEq

/-- pandas `sum` over a nullable column: NaN cells are skipped. -/
def nansum (l : List (Option ℚ)) : ℚ := (l.filterMap id).sum

/-- pandas `count` over a nullable column: number of non-NaN cells. -/
def countNonNull (l : List (Option ℚ)) : ℕ := (l.filter (fun o => o.isSome)).length

/-- pandas `nunique` over a nullable column: distinct non-NaN values. -/
def nunique (l : List (Option String)) : ℕ := (l.filterMap id).dedup.length

/-- One row of `period_agg` (lines 191-198): groupby `period` with
`total_volume = sum(value)`, `total_txs = count(tx_amount)`,
`unique_users = nunique(sourceAddress)`, `total_fees = sum(fee)`. -/
structure PeriodAggRow where
  period : ℕ
  total_volume : ℚ
  total_txs : ℕ
  unique_users : ℕ
  total_fees : ℚ
deriving DecidableEq

def paEntry (rows : List GRow) (p : ℕ) : PeriodAggRow :=
  let grp := rows.filter (fun r => r.period = p)
  { period := p
    total_volume := nansum (grp.map (·.value))
    total_txs := countNonNull (grp.map (·.tx_amount))
    unique_users := nunique (grp.map (·.sourceAddress))
    total_fees := nansum (grp.map (·.fee)) }

/-- `df.groupby("period").agg(...)`: one output row per distinct period key.
(pandas sorts the group keys; the claims are order-insensitive, so the
distinct keys are kept in `dedup` order.) -/
def period_agg (rows : List GRow) : List PeriodAggRow :=
  ((rows.map (·.period)).dedup).map (paEntry rows)

/-- One row of `period_path` (lines 201-207): groupby `(period, path)`. -/
structure PeriodPathRow where
  period : ℕ
  path : String
  volume : ℚ
  tx_count : ℕ
  users : ℕ
  fees : ℚ
deriving DecidableEq

def ppEntry (rows : List GRow) (k : ℕ × String) : PeriodPathRow :=
  let grp := rows.filter (fun r => r.period = k.1 ∧ r.path = k.2)
  { period := k.1
    path := k.2
    volume := nansum (grp.map (·.value))
    tx_count := countNonNull (grp.map (·.tx_amount))
    users := nunique (grp.map (·.sourceAddress))
    fees := nansum (grp.map (·.fee)) }

def period_path (rows : List GRow) : List PeriodPathRow :=
  ((rows.map (fun r => (r.period, r.path))).dedup).map (ppEntry rows)

/-- KPI "Unique Users (period)" (line 234): `period_agg['unique_users'].sum()`. -/
def kpi_unique_users_period (rows : List GRow) : ℕ :=
  ((period_agg rows).map (·.unique_users)).sum

/-- KPI "Unique Paths" (line 238):
`df[["sourceChain","destinationChain"]].dropna().drop_duplicates().shape[0]`. -/
def unique_paths (rows : List GRow) : ℕ :=
  (rows.filterMap (fun r =>
    match r.sourceChain, r.destinationChain with
    | some a, some b => some (a, b)
    | _, _ => none)).dedup.length

/-- NaN-skipping sum of a nullable column is the sum over exactly the
non-null cells. -/
lemma nansum_eq_filter (l : List (Option ℚ)) :
    nansum l = ((l.filter (fun o => o.isSome)).map (fun o => o.getD 0)).sum := by
  induction l with
  | nil => rfl
  | cons o t ih =>
    cases o <;> simp [nansum, List.filterMap_cons, List.filter_cons] <;>
      simpa [nansum] using ih

/-- NaN-skipping sum over a projected nullable column is a sum over exactly
the rows where the projection is non-null. -/
lemma nansum_filter_some (l : List GRow) (v : GRow → Option ℚ) :
    nansum (l.map v) = ((l.filter (fun r => (v r).isSome)).map (fun r => (v r).getD 0)).sum := by
  rw [nansum_eq_filter, List.filter_map, List.map_map]
  rfl

/-- C4: a record all of whose fee sub-fields are absent gets a null fee from
`extract_fee_cell` (likewise a record whose `fees` cell is not a dict), and
the `sum(fee)` of every `period_agg` group ranges over exactly the rows of the
group whose fee is non-null — a null fee contributes nothing and is never
coerced to zero. -/
theorem c4_null_fee_excluded_from_sums :
    extract_fee_cell (some ⟨none, none, none, none⟩) = none ∧
    extract_fee_cell none = none ∧
    ∀ (rows : List GRow), ∀ e ∈ period_agg rows,
      e.total_fees
        = (((rows.filter (fun r => r.period = e.period)).filter
            (fun r => r.fee.isSome)).map (fun r => r.fee.getD 0)).sum := by
  refine ⟨rfl, rfl, ?_⟩
  intro rows e he
  rcases List.mem_map.mp he with ⟨p, hp, rfl⟩
  exact nansum_filter_some (rows.filter (fun r => r.period = p)) (fun r => r.fee)

/-- Concrete rows for the C4 witness: one row with `fee = 2`, one with a null
fee, in the same period bucket. -/
def c4Rows : List GRow :=
  [⟨0, "A → B", none, none, none, none, none, some 2⟩,
   ⟨0, "A → B", none, none, none, none, none, none⟩]

def c4Entry : PeriodAggRow := ⟨0, 0, 0, 0, 2⟩

/-- Witness for C4: on `c4Rows` the group total is `2`, the null-fee row
contributing nothing. -/
theorem c4_null_fee_excluded_from_sums_witness :
    c4Entry ∈ period_agg c4Rows ∧
    c4Entry.total_fees
      = (((c4Rows.filter (fun r => r.period = c4Entry.period)).filter
          (fun r => r.fee.isSome)).map (fun r => r.fee.getD 0)).sum := by
  have hl : period_agg c4Rows = [c4Entry] := by
    simp [period_agg, paEntry, c4Rows, c4Entry, nansum, countNonNull, nunique,
      List.dedup, List.filter, List.filterMap]
  have hm : c4Entry ∈ period_agg c4Rows := by
    rw [hl]
    exact List.mem_singleton.mpr rfl
  exact ⟨hm, c4_null_fee_excluded_from_sums.2.2 c4Rows c4Entry hm⟩

/-! ## Partition facts relating `period_path` to `period_agg` (C7, C10) -/

section Partition

variable {κ M : Type} [DecidableEq κ] [AddCommMonoid M]

lemma nansum_map_getD (l : List GRow) (v : GRow → Option ℚ) :
    nansum (l.map v) = (l.map (fun r => (v r).getD 0)).sum := by
  rw [nansum, filterMap_id_sum, List.map_map]
  rfl

lemma countNonNull_map_ite (l : List GRow) (v : GRow → Option ℚ) :
    countNonNull (l.map v) = (l.map (fun r => if (v r).isSome then (1 : ℕ) else 0)).sum := by
  induction l with
  | nil => rfl
  | cons a t ih =>
    cases hv : v a
    · simpa [countNonNull, List.filter_cons, hv] using ih
    · simp only [countNonNull, List.map_cons, List.filter_cons, hv, Option.isSome_some,
        if_pos, List.length_cons, List.sum_cons] at ih ⊢
      omega

/-- The `(period, path)` keys of `period_path` that carry a fixed period `p`
are exactly `p` paired with the distinct paths of the period-`p` rows. -/
lemma period_filter_keys (rows : List GRow) (p : ℕ) :
    ((rows.map (fun r => (r.period, r.path))).dedup.filter (fun k => k.1 = p))
      = (((rows.filter (fun r => r.period = p)).map (·.path)).dedup).map (fun q => (p, q)) := by
  rw [dedup_filter]
  have h1 : (rows.map (fun r => (r.period, r.path))).filter (fun k => k.1 = p)
      = (rows.filter (fun r => r.period = p)).map (fun r => (r.period, r.path)) := by
    rw [List.filter_map]
    rfl
  have h2 : (rows.filter (fun r => r.period = p)).map (fun r => (r.period, r.path))
      = ((rows.filter (fun r => r.period = p)).map (·.path)).map (fun q => (p, q)) := by
    rw [List.map_map]
    apply List.map_congr_left
    intro r hr
    have hp := (List.mem_filter.mp hr).2
    simp only [decide_eq_true_eq] at hp
    simp [hp]
  have hinj : Function.Injective (fun q : String => (p, q)) := by
    intro a b hab
    simpa using hab
  rw [h1, h2, dedup_map_of_injective hinj]

/-- Splitting a `(period, path)` fiber through the period fiber. -/
lemma fiber_split (rows : List GRow) (p : ℕ) (q : String) :
    rows.filter (fun r => r.period = p ∧ r.path = q)
      = (rows.filter (fun r => r.period = p)).filter (fun r => r.path = q) := by
  rw [List.filter_filter]
  apply List.filter_congr
  intro r _
  simp [Bool.and_comm]

/-- Summing any additive per-group metric of `period_path` over the groups of
a fixed period recovers the same metric computed on all rows of that period. -/
lemma pp_sum_eq (rows : List GRow) (p : ℕ) (f : GRow → M) :
    (((rows.map (fun r => (r.period, r.path))).dedup.filter (fun k => k.1 = p)).map
        (fun k => ((rows.filter (fun r => r.period = k.1 ∧ r.path = k.2)).map f).sum)).sum
      = ((rows.filter (fun r => r.period = p)).map f).sum := by
  rw [period_filter_keys, List.map_map]
  have hcongr : ∀ q ∈ ((rows.filter (fun r => r.period = p)).map (·.path)).dedup,
      ((fun k : ℕ × String =>
          ((rows.filter (fun r => r.period = k.1 ∧ r.path = k.2)).map f).sum) ∘
        (fun q : String => (p, q))) q
        = (((rows.filter (fun r => r.period = p)).filter (fun r => r.path = q)).map f).sum := by
    intro q _
    show ((rows.filter (fun r => r.period = p ∧ r.path = q)).map f).sum = _
    rw [fiber_split]
  rw [List.map_congr_left hcongr]
  exact sum_fiber (fun r => r.path) f (rows.filter (fun r => r.period = p))

/-- The `(key, sender)` pairs carried by the rows with a non-null sender. -/
def keyedSenders (g : GRow → κ) (l : List GRow) : List (κ × String) :=
  l.filterMap (fun r => (r.sourceAddress).map (fun s => (g r, s)))

lemma keyedSenders_fiber (g : GRow → κ) (l : List GRow) (q : κ) :
    (l.filter (fun r => g r = q)).filterMap (·.sourceAddress)
      = ((keyedSenders g l).filter (fun x => x.1 = q)).map Prod.snd := by
  induction l with
  | nil => rfl
  | cons a t ih =>
    cases ha : a.sourceAddress <;> by_cases hq : g a = q <;>
      simp_all [keyedSenders, List.filterMap_cons, List.filter_cons]

lemma dedup_length_snd_of_fst_const {q : κ} (X : List (κ × String))
    (hX : ∀ x ∈ X, x.1 = q) :
    (X.map Prod.snd).dedup.length = X.dedup.length := by
  have hinj : Function.Injective (fun s : String => (q, s)) := by
    intro a b hab
    simpa using hab
  have hXeq : (X.map Prod.snd).map (fun s => (q, s)) = X := by
    rw [List.map_map]
    conv_rhs => rw [← List.map_id X]
    apply List.map_congr_left
    intro x hx
    have h1 := hX x hx
    cases x
    simp only [Function.comp, id]
    simp_all
  calc (X.map Prod.snd).dedup.length
      = (((X.map Prod.snd).map (fun s => (q, s))).dedup).length := by
        rw [dedup_map_of_injective hinj, List.length_map]
    _ = X.dedup.length := by rw [hXeq]

/-- Summing per-fiber distinct-sender counts over the distinct keys counts
each `(key, sender)` pair once: a sender appearing under `k` distinct keys is
counted `k` times. -/
lemma sum_nunique_fibers (g : GRow → κ) (l : List GRow) :
    (((l.map g).dedup).map
        (fun q => nunique ((l.filter (fun r => g r = q)).map (·.sourceAddress)))).sum
      = (keyedSenders g l).dedup.length := by
  have hstep : ∀ q ∈ (l.map g).dedup,
      nunique ((l.filter (fun r => g r = q)).map (·.sourceAddress))
        = (((keyedSenders g l).dedup).filter (fun x => x.1 = q)).length := by
    intro q _
    rw [nunique, List.filterMap_map]
    show ((l.filter (fun r => g r = q)).filterMap (·.sourceAddress)).dedup.length = _
    rw [keyedSenders_fiber g l q]
    rw [dedup_length_snd_of_fst_const _ (fun x hx => by
      simpa using (List.mem_filter.mp hx).2)]
    rw [dedup_filter]
  rw [List.map_congr_left hstep]
  apply sum_counts_eq_length (List.nodup_dedup _)
  intro x hx
  rcases List.mem_filterMap.mp (List.mem_dedup.mp hx) with ⟨r, hr, hmap⟩
  cases ha : r.sourceAddress with
  | none => rw [ha] at hmap; cases hmap
  | some s =>
    rw [ha] at hmap
    simp only [Option.map_some', Option.some_inj] at hmap
    rw [← hmap]
    exact List.mem_dedup.mpr (List.mem_map_of_mem g hr)

omit [DecidableEq κ] in
lemma keyedSenders_map_snd (g : GRow → κ) (l : List GRow) :
    (keyedSenders g l).map Prod.snd = l.filterMap (·.sourceAddress) := by
  induction l with
  | nil => rfl
  | cons a t ih =>
    cases ha : a.sourceAddress <;>
      simp_all [keyedSenders, List.filterMap_cons]

/-- The period filter on `period_path` entries tests exactly the first
component of the group key (`(ppEntry rows k).period` is `k.1`). -/
lemma pp_filter_pred (rows : List GRow) (p : ℕ) :
    ((rows.map (fun r => (r.period, r.path))).dedup.filter
        ((fun x : PeriodPathRow => decide (x.period = p)) ∘ ppEntry rows))
      = ((rows.map (fun r => (r.period, r.path))).dedup.filter
          (fun k => decide (k.1 = p))) := rfl

end Partition

/-- C7 amended: within each time bucket the per-path rows of `period_path`
add up to the bucket row of `period_agg` for the summed/counted metrics
(volume, transaction count, fees); the distinct-sender counts only satisfy an
inequality — the bucket's distinct total is at most the sum over paths, since
a sender active on several paths of one bucket is counted once per path. -/
theorem c7_group_sums_vs_totals :
    ∀ rows : List GRow, ∀ e ∈ period_agg rows,
      ((((period_path rows).filter (fun x => x.period = e.period)).map (·.volume)).sum
          = e.total_volume) ∧
      ((((period_path rows).filter (fun x => x.period = e.period)).map (·.tx_count)).sum
          = e.total_txs) ∧
      ((((period_path rows).filter (fun x => x.period = e.period)).map (·.fees)).sum
          = e.total_fees) ∧
      e.unique_users
        ≤ (((period_path rows).filter (fun x => x.period = e.period)).map (·.users)).sum := by
  intro rows e he
  rcases List.mem_map.mp he with ⟨p, hp, rfl⟩
  simp only [paEntry]
  refine ⟨?_, ?_, ?_, ?_⟩
  · rw [period_path, List.filter_map, pp_filter_pred, List.map_map]
    have h : ∀ k ∈ (rows.map (fun r => (r.period, r.path))).dedup.filter
        (fun k => k.1 = p),
        ((fun x : PeriodPathRow => x.volume) ∘ ppEntry rows) k
          = ((rows.filter (fun r => r.period = k.1 ∧ r.path = k.2)).map
              (fun r => (r.value).getD 0)).sum := by
      intro k _
      exact nansum_map_getD _ _
    rw [List.map_congr_left h, pp_sum_eq rows p (fun r => (r.value).getD 0),
      ← nansum_map_getD]
  · rw [period_path, List.filter_map, pp_filter_pred, List.map_map]
    have h : ∀ k ∈ (rows.map (fun r => (r.period, r.path))).dedup.filter
        (fun k => k.1 = p),
        ((fun x : PeriodPathRow => x.tx_count) ∘ ppEntry rows) k
          = ((rows.filter (fun r => r.period = k.1 ∧ r.path = k.2)).map
              (fun r => if (r.tx_amount).isSome then (1 : ℕ) else 0)).sum := by
      intro k _
      exact countNonNull_map_ite _ _
    rw [List.map_congr_left h,
      pp_sum_eq rows p (fun r => if (r.tx_amount).isSome then (1 : ℕ) else 0),
      ← countNonNull_map_ite]
  · rw [period_path, List.filter_map, pp_filter_pred, List.map_map]
    have h : ∀ k ∈ (rows.map (fun r => (r.period, r.path))).dedup.filter
        (fun k => k.1 = p),
        ((fun x : PeriodPathRow => x.fees) ∘ ppEntry rows) k
          = ((rows.filter (fun r => r.period = k.1 ∧ r.path = k.2)).map
              (fun r => (r.fee).getD 0)).sum := by
      intro k _
      exact nansum_map_getD _ _
    rw [List.map_congr_left h, pp_sum_eq rows p (fun r => (r.fee).getD 0),
      ← nansum_map_getD]
  · rw [period_path, List.filter_map, pp_filter_pred, List.map_map, period_filter_keys,
      List.map_map]
    have h : ∀ q ∈ (((rows.filter (fun r => r.period = p)).map (·.path)).dedup),
        (((fun x : PeriodPathRow => x.users) ∘ ppEntry rows) ∘ fun q => (p, q)) q
          = nunique (((rows.filter (fun r => r.period = p)).filter
              (fun r => r.path = q)).map (·.sourceAddress)) := by
      intro q _
      show nunique ((rows.filter (fun r => r.period = p ∧ r.path = q)).map
        (·.sourceAddress)) = _
      rw [fiber_split]
    rw [List.map_congr_left h]
    have hsum := sum_nunique_fibers (fun r => r.path) (rows.filter (fun r => r.period = p))
    rw [hsum]
    have hL : nunique ((rows.filter (fun r => r.period = p)).map (·.sourceAddress))
        = ((keyedSenders (fun r => r.path) (rows.filter (fun r => r.period = p))).map
            Prod.snd).dedup.length := by
      rw [keyedSenders_map_snd, nunique, List.filterMap_map]
      rfl
    rw [hL]
    exact dedup_length_map_le _ _

/-- Rows for the C7 counterexample and witness: one sender active on two paths
inside the same time bucket. -/
def c7Rows : List GRow :=
  [⟨0, "A → B", none, none, some "alice", none, none, none⟩,
   ⟨0, "B → C", none, none, some "alice", none, none, none⟩]

def c7Entry : PeriodAggRow := ⟨0, 0, 0, 1, 0⟩

/-- C7 counterexample: summing the per-path distinct-sender counts of bucket 0
gives `2`, while the bucket's un-grouped distinct sender count is `1` — the
grouping invariant fails for the distinct-count metric (double counting). -/
theorem c7_distinct_sender_counterexample :
    (((period_path c7Rows).filter (fun x => x.period = 0)).map (·.users)).sum = 2 ∧
    (period_agg c7Rows).map (·.unique_users) = [1] := by
  constructor
  · simp [period_path, ppEntry, c7Rows, nunique, List.dedup, List.filter, List.filterMap]
  · simp [period_agg, paEntry, c7Rows, nunique, List.dedup, List.filter, List.filterMap]

/-- Witness for the amended C7 at the concrete input `c7Rows`. -/
theorem c7_group_sums_vs_totals_witness :
    c7Entry ∈ period_agg c7Rows ∧
    (((period_path c7Rows).filter (fun x => x.period = c7Entry.period)).map
        (·.volume)).sum = c7Entry.total_volume := by
  have hl : period_agg c7Rows = [c7Entry] := by
    simp [period_agg, paEntry, c7Rows, c7Entry, nansum, countNonNull, nunique,
      List.dedup, List.filter, List.filterMap]
  have hm : c7Entry ∈ period_agg c7Rows := by
    rw [hl]
    exact List.mem_singleton.mpr rfl
  exact ⟨hm, (c7_group_sums_vs_totals c7Rows c7Entry hm).1⟩

/-- Rows for C10: the same sender active in two different time buckets. -/
def c10Rows : List GRow :=
  [⟨0, "A → B", none, none, some "alice", none, none, none⟩,
   ⟨1, "A → B", none, none, some "alice", none, none, none⟩]

/-- C10: the "Unique Users (period)" KPI sums the per-bucket distinct sender
counts, i.e. it counts the distinct `(bucket, sender)` pairs — a sender active
in `k` buckets contributes `k`.  On `c10Rows` the KPI is `2` although only one
distinct sender appears in the whole range. -/
theorem c10_unique_users_kpi :
    (∀ rows : List GRow,
      kpi_unique_users_period rows
        = (keyedSenders (fun r => r.period) rows).dedup.length) ∧
    kpi_unique_users_period c10Rows = 2 ∧
    nunique (c10Rows.map (·.sourceAddress)) = 1 := by
  refine ⟨?_, ?_, ?_⟩
  · intro rows
    rw [kpi_unique_users_period, period_agg, List.map_map]
    have h : ∀ p ∈ (rows.map (·.period)).dedup,
        ((fun e : PeriodAggRow => e.unique_users) ∘ paEntry rows) p
          = nunique ((rows.filter (fun r => r.period = p)).map (·.sourceAddress)) :=
      fun p _ => rfl
    rw [List.map_congr_left h]
    exact sum_nunique_fibers (fun r => r.period) rows
  · simp [kpi_unique_users_period, period_agg, paEntry, c10Rows, nunique,
      List.dedup, List.filter, List.filterMap]
  · simp [c10Rows, nunique, List.dedup, List.filterMap]

/-! ## Chain fallbacks and the "Unknown" placeholder (C6)

`preprocess` lines 75-82:

    src_chain = get_col("sourceChain").fillna(df.get("origin_chain"))
    dst_chain = get_col("destinationChain").fillna(df.get("destination_chain"))
                .fillna(df.get("callback_chain"))
    df["path"] = df["sourceChain"].fillna("Unknown").astype(str)
                 + " → " + df["destinationChain"].fillna("Unknown").astype(str)

`get_col(name)` prefers the top-level column and falls back to the expanded
`interchain_transfer` sub-object; `fillna` with a present column is an
element-wise preference for the first non-null. -/

/-- Chain fields of the expanded `interchain_transfer` sub-object. -/
structure ITransferObj where
  sourceChain : Option String
  destinationChain : Option String
deriving DecidableEq

/-- The chain-related fields of one raw GMP record. -/
structure RawChainRec where
  interchain_transfer : Option ITransferObj
  sourceChain : Option String
  destinationChain : Option String
  origin_chain : Option String
  destination_chain : Option String
  callback_chain : Option String
deriving DecidableEq

def get_col_sourceChain (r : RawChainRec) : Option String :=
  r.sourceChain.orElse (fun _ => r.interchain_transfer.bind (·.sourceChain))

def get_col_destinationChain (r : RawChainRec) : Option String :=
  r.destinationChain.orElse (fun _ => r.interchain_transfer.bind (·.destinationChain))

/-- `src_chain` of `preprocess` (line 78). -/
def src_chain (r : RawChainRec) : Option String :=
  (get_col_sourceChain r).orElse (fun _ => r.origin_chain)

/-- `dst_chain` of `preprocess` (line 79). -/
def dst_chain (r : RawChainRec) : Option String :=
  ((get_col_destinationChain r).orElse (fun _ => r.destination_chain)).orElse
    (fun _ => r.callback_chain)

/-- The `path` column built in `preprocess` (line 82): missing chains are
replaced by the literal string "Unknown" before concatenation. -/
def pathOf (r : RawChainRec) : String :=
  (src_chain r).getD "Unknown" ++ " → " ++ (dst_chain r).getD "Unknown"

/-- A raw record with every chain field missing. -/
def c6Raw : RawChainRec := ⟨none, none, none, none, none, none⟩

/-- The normalized row `preprocess` produces for `c6Raw` (fields irrelevant to
C6 are null). -/
def c6Row : GRow :=
  ⟨0, pathOf c6Raw, src_chain c6Raw, dst_chain c6Raw, none, none, none, none⟩

/-- C6 counterexample: for a record with missing chains the substituted
"Unknown" ends up inside the `path` value computed during normalization, and
that value is the grouping key of `period_path` — so "Unknown" does appear
inside an aggregation key used for grouping and counting, contrary to the
claim that it is substituted only at presentation time. -/
theorem c6_unknown_in_group_key_counterexample :
    pathOf c6Raw = "Unknown → Unknown" ∧
    (period_path [c6Row]).map (fun e => (e.period, e.path))
      = [(0, "Unknown → Unknown")] := by
  refine ⟨rfl, ?_⟩
  simp [period_path, ppEntry, c6Row, c6Raw, pathOf, src_chain, dst_chain,
    get_col_sourceChain, get_col_destinationChain, List.dedup]

/-- C6 amended: "Unknown" is substituted during normalization (in
`preprocess`, when the `path` column is built), and paths containing
"Unknown" ARE used as aggregation keys (`period_path` groups by them); the
chain columns themselves keep their missing values, and the chain-level
distinct counts (the "Unique Paths" KPI) drop rows with a missing chain
rather than counting them under "Unknown". -/
theorem c6_unknown_amended :
    (∀ r : RawChainRec, src_chain r = none → dst_chain r = none →
      pathOf r = "Unknown → Unknown") ∧
    (∀ (rows : List GRow) (g : GRow), g ∈ rows →
      (g.period, g.path) ∈ (period_path rows).map (fun e => (e.period, e.path))) ∧
    (∀ (g : GRow) (rows : List GRow),
      g.sourceChain = none ∨ g.destinationChain = none →
      unique_paths (g :: rows) = unique_paths rows) := by
  refine ⟨?_, ?_, ?_⟩
  · intro r h1 h2
    rw [pathOf, h1, h2]
    rfl
  · intro rows g hg
    refine List.mem_map.mpr ⟨ppEntry rows (g.period, g.path), ?_, rfl⟩
    exact List.mem_map_of_mem _
      (List.mem_dedup.mpr (List.mem_map_of_mem _ hg))
  · intro g rows h
    rcases h with h | h
    · simp [unique_paths, List.filterMap_cons, h]
    · cases hs : g.sourceChain <;> simp [unique_paths, List.filterMap_cons, h, hs]

/-- Witness for the amended C6 at the all-missing record `c6Raw`. -/
theorem c6_unknown_amended_witness :
    pathOf c6Raw = "Unknown → Unknown" ∧
    (c6Row.period, c6Row.path)
      ∈ (period_path [c6Row]).map (fun e => (e.period, e.path)) ∧
    unique_paths [c6Row] = unique_paths [] := by
  refine ⟨c6_unknown_amended.1 c6Raw rfl rfl, ?_, ?_⟩
  · exact c6_unknown_amended.2.1 [c6Row] c6Row (List.mem_singleton.mpr rfl)
  · exact c6_unknown_amended.2.2 c6Row [] (Or.inl rfl)

/-! ## Fetch failure handling (C3)

`fetch_gmp_data` in `3_💎ITS_Token_Monitoring.py` (lines 31-51) wraps the
whole request/parse in try/except and returns an empty frame plus `st.error`.
The `api_urls` loop of `1_🚀Interchain_Transfers.py` (lines 156-173) only
tests `status_code == 200`: a raised `requests` exception propagates, and
after the loop `pd.concat(dfs)` raises `ValueError` when `dfs` is empty —
which is exactly the situation in which every configured source failed. -/

/-- A raw GMP record, opaque to the fetch contract. -/
structure GmpRec where
  id : ℕ
deriving DecidableEq

/-- The parsed JSON payload shapes the fetchers distinguish. -/
inductive Payload
  | dictWithData (recs : List GmpRec)
  | bareList (recs : List GmpRec)
  | other
deriving DecidableEq

/-- Outcome of one `requests.get`: either a response with a status code and a
parsed payload, or a raised transport exception. -/
inductive HttpOutcome
  | resp (status : ℕ) (payload : Payload)
  | transportFail
deriving DecidableEq

/-- The try-block body of `fetch_gmp_data`: `raise_for_status` raises on a
4xx/5xx status; `{"data": [...]}` and bare lists become frames, anything else
an empty frame. -/
def fetch_gmp_body : HttpOutcome → Except String (List GmpRec)
  | .transportFail => .error "requests exception"
  | .resp s p =>
    if 400 ≤ s then .error "HTTPError"
    else
      match p with
      | .dictWithData recs => .ok recs
      | .bareList recs => .ok recs
      | .other => .ok []

/-- `fetch_gmp_data`: the body under try/except — an exception becomes an
empty result paired with the `st.error` warning text; never re-raised. -/
def fetch_gmp_data (o : HttpOutcome) : List GmpRec × Option String :=
  match fetch_gmp_body o with
  | .ok recs => (recs, none)
  | .error e => ([], some e)

/-- One iteration of the `api_urls` loop: a transport exception propagates
(no try/except); on status 200 the code evaluates `response.json()["data"]`
(raising if the payload is not a dict with a `data` key); otherwise it calls
`st.error` and appends nothing. -/
def fetchChart : HttpOutcome → Except String (Option (List GmpRec))
  | .transportFail => .error "requests exception"
  | .resp s p =>
    if s = 200 then
      match p with
      | .dictWithData recs => .ok (some recs)
      | _ => .error "KeyError: data"
    else .ok none

/-- The `for url in api_urls` loop collecting `dfs`. -/
def apiLoop : List HttpOutcome → Except String (List (List GmpRec))
  | [] => .ok []
  | o :: rest =>
    match fetchChart o with
    | .error e => .error e
    | .ok none => apiLoop rest
    | .ok (some d) => (apiLoop rest).map (d :: ·)

/-- `pd.concat(dfs)`: raises `ValueError` on an empty list of frames. -/
def concatDfs (dfs : List (List GmpRec)) : Except String (List GmpRec) :=
  if dfs.isEmpty then .error "ValueError: No objects to concatenate"
  else .ok dfs.flatten

/-- The whole multi-source chart fetch of `1_🚀Interchain_Transfers.py`. -/
def interchainChartFetch (outcomes : List HttpOutcome) : Except String (List GmpRec) :=
  match apiLoop outcomes with
  | .error e => .error e
  | .ok dfs => concatDfs dfs

/-- A failed source in the sense of the claim: transport failure or a
non-success HTTP status. -/
def fetchFailed : HttpOutcome → Bool
  | .transportFail => true
  | .resp s _ => s ≠ 200

/-- C3 counterexample: when every configured data source fails (two 500
responses), each failure is warned about, but the following `pd.concat` of an
empty list raises an uncaught `ValueError` — an exception does propagate to
the caller in exactly the all-sources-failed case. -/
theorem c3_uncaught_exception_counterexample :
    interchainChartFetch [.resp 500 .other, .resp 500 .other]
      = .error "ValueError: No objects to concatenate" ∧
    fetchFailed (.resp 500 .other) = true := ⟨rfl, rfl⟩

/-- C3 amended: the single-source fetchers wrapped in try/except
(`fetch_gmp_data`) indeed return an empty result with a user-visible warning
on any failure and never re-raise; but the multi-source chart fetch of the
Interchain Transfers page raises an uncaught exception whenever every
configured source fails (and a transport exception in its loop propagates). -/
theorem c3_fetch_error_amended :
    (∀ o e, fetch_gmp_body o = .error e → fetch_gmp_data o = ([], some e)) ∧
    (∀ outcomes : List HttpOutcome, (∀ o ∈ outcomes, fetchFailed o = true) →
      ∃ e, interchainChartFetch outcomes = .error e) := by
  constructor
  · intro o e he
    rw [fetch_gmp_data, he]
  · intro outcomes h
    induction outcomes with
    | nil => exact ⟨_, rfl⟩
    | cons o rest ih =>
      cases o with
      | transportFail => exact ⟨_, rfl⟩
      | resp s p =>
        have hs : s ≠ 200 := by
          simpa [fetchFailed] using h _ (List.mem_cons_self _ _)
        have hch : fetchChart (.resp s p) = .ok none := by
          simp [fetchChart, hs]
        obtain ⟨e, he⟩ := ih (fun x hx => h x (List.mem_cons_of_mem _ hx))
        refine ⟨e, ?_⟩
        rw [interchainChartFetch] at he ⊢
        rw [apiLoop, hch]
        exact he

/-- Witness for the amended C3: a raised request exception is converted to an
empty result plus warning, and a single failed source already makes the
multi-source fetch raise. -/
theorem c3_fetch_error_amended_witness :
    fetch_gmp_data .transportFail = ([], some "requests exception") ∧
    ∃ e, interchainChartFetch [HttpOutcome.resp 500 .other] = .error e := by
  refine ⟨c3_fetch_error_amended.1 .transportFail _ rfl, ?_⟩
  exact c3_fetch_error_amended.2 [HttpOutcome.resp 500 .other] (by decide)

/-! ## Timestamp extraction and the drop of unparseable rows (C8)

`extract_ts_row` in `3_💎ITS_Token_Monitoring.py` (lines 104-124) walks the
sub-objects `executed, call, approved, confirm, transaction`, inside each the
candidates `block_timestamp, timestamp, l1Timestamp, l1_timestamp`; a falsy
value is skipped (`if t:`), a truthy value that `int()` cannot convert is
skipped by the bare `except: pass`.  Then the top-level candidates
`block_timestamp, timestamp`.  Line 127-128 converts with
`pd.to_datetime(..., unit="s", errors="coerce")` and drops the `NaT` rows. -/

/-- A Python value found in a timestamp field: an integer-like number, or a
string that `int()` cannot parse (truthy but unconvertible). -/
inductive PyTsVal
  | num (n : ℤ)
  | badStr
deriving DecidableEq

/-- Python truthiness of a timestamp candidate (`if t:`): `0` is falsy, a
non-empty string is truthy. -/
def pyTsTruthy : PyTsVal → Bool
  | .num n => n ≠ 0
  | .badStr => true

/-- `int(t)`: succeeds on numbers, raises on an unparseable string. -/
def pyInt : PyTsVal → Option ℤ
  | .num n => some n
  | .badStr => none

/-- One nested sub-object (`executed`, `call`, ...) with its candidate keys. -/
structure TsObj where
  block_timestamp : Option PyTsVal
  timestamp : Option PyTsVal
  l1Timestamp : Option PyTsVal
  l1_timestamp : Option PyTsVal
deriving DecidableEq

/-- The timestamp-bearing fields of one raw GMP record. -/
structure RawTsRec where
  executed : Option TsObj
  call : Option TsObj
  approved : Option TsObj
  confirm : Option TsObj
  transaction : Option TsObj
  block_timestamp : Option PyTsVal
  timestamp : Option PyTsVal
deriving DecidableEq

/-- The inner candidate loop: `if t: try: return int(t) except: pass`. -/
def tryCandidates : List (Option PyTsVal) → Option ℤ
  | [] => none
  | none :: rest => tryCandidates rest
  | some t :: rest =>
    if pyTsTruthy t then
      match pyInt t with
      | some n => some n
      | none => tryCandidates rest
    else tryCandidates rest

def tsCandidatesOf (o : TsObj) : List (Option PyTsVal) :=
  [o.block_timestamp, o.timestamp, o.l1Timestamp, o.l1_timestamp]

/-- The outer sub-object loop: skip non-dict values, return on first hit. -/
def subObjSearch : List (Option TsObj) → Option ℤ
  | [] => none
  | none :: rest => subObjSearch rest
  | some o :: rest =>
    match tryCandidates (tsCandidatesOf o) with
    | some n => some n
    | none => subObjSearch rest

/-- `extract_ts_row`: nested sub-objects first, then top-level fallback. -/
def extract_ts_row (r : RawTsRec) : Option ℤ :=
  match subObjSearch [r.executed, r.call, r.approved, r.confirm, r.transaction] with
  | some n => some n
  | none => tryCandidates [r.block_timestamp, r.timestamp]

/-- `pd.to_datetime(n, unit="s", errors="coerce")` on an integer: the value in
seconds, or `NaT` when the instant does not fit the int64 nanosecond range. -/
def pdToDatetimeSec (n : ℤ) : Option ℤ :=
  if -9223372036 ≤ n ∧ n ≤ 9223372036 then some n else none

/-- The parsed timestamp of a record, `NaT` when extraction or conversion
fails. -/
def parsedTs (r : RawTsRec) : Option ℤ :=
  (extract_ts_row r).bind pdToDatetimeSec

/-- `preprocess`, timestamp part (lines 126-128): attach the parsed timestamp
to every row, then `dropna(subset=["timestamp"])`. -/
def preprocess_ts (rows : List RawTsRec) : List (RawTsRec × ℤ) :=
  (rows.map (fun r => (r, parsedTs r))).filterMap
    (fun x => x.2.map (fun t => (x.1, t)))

/-- C8: rows whose timestamp cannot be parsed are dropped, never defaulted.
Every surviving row carries exactly the timestamp parsed from its own record
(in particular a valid one — never "now" and never an arbitrary zero), a
record that fails to parse contributes no row at all, and the survivors are
exactly the parseable rows, in order. -/
theorem c8_unparseable_rows_dropped (rows : List RawTsRec) :
    (∀ x ∈ preprocess_ts rows, parsedTs x.1 = some x.2) ∧
    (∀ r ∈ rows, parsedTs r = none → ∀ t, (r, t) ∉ preprocess_ts rows) ∧
    (preprocess_ts rows).length
      = (rows.filter (fun r => (parsedTs r).isSome)).length := by
  refine ⟨?_, ?_, ?_⟩
  · intro x hx
    rcases List.mem_filterMap.mp hx with ⟨y, hmem, hmap⟩
    rcases List.mem_map.mp hmem with ⟨r0, _, rfl⟩
    cases ht : parsedTs r0 with
    | none => simp only [ht, Option.map_none'] at hmap; cases hmap
    | some t =>
      simp only [ht, Option.map_some', Option.some_inj] at hmap
      rw [← hmap, ht]
  · intro r _ hnone t hx
    rcases List.mem_filterMap.mp hx with ⟨y, hmem, hmap⟩
    rcases List.mem_map.mp hmem with ⟨r0, _, rfl⟩
    cases ht : parsedTs r0 with
    | none => simp only [ht, Option.map_none'] at hmap; cases hmap
    | some u =>
      simp only [ht, Option.map_some', Option.some_inj, Prod.mk.injEq] at hmap
      rcases hmap with ⟨rfl, rfl⟩
      rw [hnone] at ht
      cases ht
  · induction rows with
    | nil => rfl
    | cons a t ih =>
      cases ht : parsedTs a <;>
        simp [preprocess_ts, List.filterMap_cons, List.filter_cons, ht] <;>
        simpa [preprocess_ts] using ih

/-- A record with a parseable nested timestamp and one with none at all. -/
def c8Good : RawTsRec :=
  ⟨some ⟨some (.num 1700000000), none, none, none⟩, none, none, none, none, none, none⟩

def c8Bad : RawTsRec := ⟨none, none, none, none, none, none, some .badStr⟩

/-- Witness for C8 on a concrete mixed list: the parseable record survives
with its own timestamp, the unparseable one is dropped, and the output length
counts only the parseable record. -/
theorem c8_unparseable_rows_dropped_witness :
    parsedTs c8Good = some 1700000000 ∧
    ((c8Good, (1700000000 : ℤ)) ∈ preprocess_ts [c8Good, c8Bad] →
      parsedTs c8Good = some 1700000000) ∧
    (c8Bad, (0 : ℤ)) ∉ preprocess_ts [c8Good, c8Bad] ∧
    (preprocess_ts [c8Good, c8Bad]).length = 1 := by
  refine ⟨by decide, ?_, ?_, ?_⟩
  · intro hmem
    exact (c8_unparseable_rows_dropped [c8Good, c8Bad]).1 (c8Good, 1700000000) hmem
  · exact (c8_unparseable_rows_dropped [c8Good, c8Bad]).2.1 c8Bad
      (by decide) (by decide) 0
  · exact (c8_unparseable_rows_dropped [c8Good, c8Bad]).2.2.trans (by decide)

/-! ## Share computations and division by zero (C9)

`4_🔎Monitoring_ITS_Tokens.py` lines 557-559 and 664-666:

    df_norm["total"] = df_norm.groupby("date")[...].transform("sum")
    df_norm["share"] = df_norm[...] / df_norm["total"]

numpy float division never raises: `0/0` is NaN, `x/0` for `x ≠ 0` a signed
infinity; shares are therefore a total function of the rows. -/

/-- A pandas float cell as produced by the share division. -/
inductive PdFloat
  | num (q : ℚ)
  | nan
  | inf
  | ninf
deriving DecidableEq

/-- numpy float division of finite values: never raises; `0/0` is NaN and
`x/0` a signed infinity. -/
def pdDiv (x y : ℚ) : PdFloat :=
  if y = 0 then
    if x = 0 then .nan else if x > 0 then .inf else .ninf
  else .num (x / y)

/-- One row of `df_timeseries` as used by the route-share chart
(lines 557-559). -/
structure TsSeriesRow where
  date : ℕ
  path : String
  vol : ℚ
deriving DecidableEq

/-- `groupby("date")["transfers_volume_native_token"].transform("sum")`. -/
def totalOf (rows : List TsSeriesRow) (d : ℕ) : ℚ :=
  ((rows.filter (fun r => r.date = d)).map (·.vol)).sum

/-- The `share` column: one cell per row, row value over per-date total. -/
def shareColumn (rows : List TsSeriesRow) : List PdFloat :=
  rows.map (fun r => pdDiv r.vol (totalOf rows r.date))

/-- One row of `df_volume_distribution` as used by the normalized
distribution chart (lines 664-666); the metric is a transfer count. -/
structure DistRow where
  date : ℕ
  cls : String
  count : ℕ
deriving DecidableEq

def totalPerDate (rows : List DistRow) (d : ℕ) : ℕ :=
  ((rows.filter (fun r => r.date = d)).map (·.count)).sum

/-- The `normalized` column of the distribution chart. -/
def normalizedColumn (rows : List DistRow) : List PdFloat :=
  rows.map (fun r => pdDiv (r.count : ℚ) ((totalPerDate rows r.date : ℕ) : ℚ))

/-- C9: share computations are total (one output cell per row, no exception);
whenever a row's per-bucket total is zero its share is NaN — never the number
zero and never an error — and with a non-zero total the share is the ordinary
quotient.  For the volume-based chart this holds under the data-model
assumption that volumes are non-negative; for the count-based chart the
metric is a cardinality, so no assumption is needed. -/
theorem c9_share_division_by_zero :
    (∀ rows : List TsSeriesRow, (shareColumn rows).length = rows.length) ∧
    (∀ rows : List TsSeriesRow, (∀ x ∈ rows, 0 ≤ x.vol) → ∀ r ∈ rows,
      (totalOf rows r.date = 0 → pdDiv r.vol (totalOf rows r.date) = .nan) ∧
      (totalOf rows r.date ≠ 0 →
        pdDiv r.vol (totalOf rows r.date) = .num (r.vol / totalOf rows r.date))) ∧
    (∀ rows : List DistRow, ∀ r ∈ rows, totalPerDate rows r.date = 0 →
      pdDiv (r.count : ℚ) ((totalPerDate rows r.date : ℕ) : ℚ) = .nan) ∧
    PdFloat.nan ≠ PdFloat.num 0 := by
  refine ⟨?_, ?_, ?_, by decide⟩
  · intro rows
    exact List.length_map _ _
  · intro rows hnn r hr
    constructor
    · intro h0
      have hmemf : r ∈ rows.filter (fun x => x.date = r.date) :=
        List.mem_filter.mpr ⟨hr, by simp⟩
      have hmem : r.vol ∈ (rows.filter (fun x => x.date = r.date)).map (·.vol) :=
        List.mem_map_of_mem _ hmemf
      have hnn2 : ∀ v ∈ (rows.filter (fun x => x.date = r.date)).map (·.vol), 0 ≤ v := by
        intro v hv
        rcases List.mem_map.mp hv with ⟨x, hx, rfl⟩
        exact hnn x (List.mem_filter.mp hx).1
      have hle : r.vol ≤ totalOf rows r.date := List.single_le_sum hnn2 _ hmem
      have hz : r.vol = 0 :=
        le_antisymm (h0 ▸ hle) (hnn r hr)
      rw [pdDiv, if_pos h0, if_pos hz]
    · intro h0
      rw [pdDiv, if_neg h0]
  · intro rows r hr h0
    have hmemf : r ∈ rows.filter (fun x => x.date = r.date) :=
      List.mem_filter.mpr ⟨hr, by simp⟩
    have hmem : r.count ∈ (rows.filter (fun x => x.date = r.date)).map (·.count) :=
      List.mem_map_of_mem _ hmemf
    have hz : r.count = 0 :=
      List.sum_eq_zero_iff.mp h0 _ hmem
    rw [h0, hz]
    rfl

/-- Rows for the C9 witness: a single row with volume 0, so its bucket total
is 0. -/
def c9Rows : List TsSeriesRow := [⟨0, "A → B", 0⟩]

/-- Witness for C9: with a zero per-bucket total the share evaluates to NaN. -/
theorem c9_share_division_by_zero_witness :
    totalOf c9Rows 0 = 0 ∧
    pdDiv (0 : ℚ) (totalOf c9Rows 0) = .nan := by
  have h1 : totalOf c9Rows 0 = 0 := by
    simp [totalOf, c9Rows]
  have h2 := (c9_share_division_by_zero.2.1 c9Rows
    (by intro x hx; simp [c9Rows] at hx; simp [hx])
    ⟨0, "A → B", 0⟩ (List.mem_singleton.mpr rfl)).1 h1
  exact ⟨h1, h2⟩

/-! ## Time-bucket resampling (C5)

`aggregate_by_timeframe` in `5_📖test.py` (lines 106-122) resamples by
`D` / `W-MON` / `M`; the version in `4_🔎Monitoring_ITS_Tokens.py`
(lines 149-168) has the `D` resample of its `"day"` branch commented out and
replaced by `M`.  `resample` bins the datetime index from its first to its
last value (emitting zero rows for empty bins in between) and sums per bin.
Bucket identities are embedded as abstract `ℕ` keys: the calendar day number
for `D`, the index of the Tuesday-to-Monday bin for `W-MON` (pandas closes
weekly bins on the right, so a week runs Tue..Mon and is identified by its
Monday), and the calendar month index for `M`; `label='left'`/`'right'` only
renames the buckets and does not change the grouping. -/

/-- A civil date. -/
structure Date where
  year : ℕ
  month : ℕ
  day : ℕ
deriving DecidableEq

def isLeap (y : ℕ) : Bool :=
  y % 4 = 0 && (y % 100 ≠ 0 || y % 400 = 0)

def daysInMonth (y m : ℕ) : ℕ :=
  if m = 2 then (if isLeap y then 29 else 28)
  else if m = 4 ∨ m = 6 ∨ m = 9 ∨ m = 11 then 30
  else 31

def nextDate (d : Date) : Date :=
  if d.day < daysInMonth d.year d.month then ⟨d.year, d.month, d.day + 1⟩
  else if d.month < 12 then ⟨d.year, d.month + 1, 1⟩
  else ⟨d.year + 1, 1, 1⟩

/-- The civil date of day number `n` (days since 1970-01-01, the epoch). -/
def dateOfDay : ℕ → Date
  | 0 => ⟨1970, 1, 1⟩
  | n + 1 => nextDate (dateOfDay n)

/-- The `resample('M')` bucket identity of a date: its month, linearly. -/
def monthIdx (d : Date) : ℕ := 12 * d.year + d.month

/-- `resample('D')` bucket of an epoch-seconds instant: its UTC calendar day. -/
def dayKey (t : ℕ) : ℕ := t / 86400

/-- `resample('W-MON')` bucket: 1970-01-01 is a Thursday, so day numbers
congruent to 4 mod 7 are Mondays; the bin of a day is identified by the
Monday on or after it, i.e. by `ceil((day + 3) / 7)`. -/
def weekKey (t : ℕ) : ℕ := (t / 86400 + 3 + 6) / 7

/-- `resample('M')` bucket of an epoch-seconds instant. -/
def monthKey (t : ℕ) : ℕ := monthIdx (dateOfDay (t / 86400))

/-- One row of the frame returned by `load_gmp_data`: after the coercions and
the timestamp dropna, every row has a valid instant, an integer `num_txs` and
a float `volume`. -/
structure ChartRow where
  ts : ℕ
  num_txs : ℤ
  volume : ℚ
deriving DecidableEq

structure ChartAggRow where
  bucket : ℕ
  num_txs : ℤ
  volume : ℚ
deriving DecidableEq

/-- `d.resample(freq).agg({'num_txs': 'sum', 'volume': 'sum'})`: one output
row per bucket from the bucket of the first index value to the bucket of the
last (empty buckets included with zero sums), each holding the sums over the
rows falling in that bucket. -/
def resampleAgg (key : ℕ → ℕ) : List ChartRow → List ChartAggRow
  | [] => []
  | r0 :: rest =>
    let kmin := key (((r0 :: rest).map (·.ts)).foldl min r0.ts)
    let kmax := key (((r0 :: rest).map (·.ts)).foldl max r0.ts)
    (List.range' kmin (kmax + 1 - kmin)).map (fun b =>
      { bucket := b
        num_txs := (((r0 :: rest).filter (fun r => key r.ts = b)).map (·.num_txs)).sum
        volume := (((r0 :: rest).filter (fun r => key r.ts = b)).map (·.volume)).sum })

/-- The frequency choice of `aggregate_by_timeframe` in `5_📖test.py`:
`day → D`, `week → W-MON`, `month → M`, anything else `D`. -/
def timeframeKey (tf : String) : ℕ → ℕ :=
  if tf = "day" then dayKey
  else if tf = "week" then weekKey
  else if tf = "month" then monthKey
  else dayKey

def aggregate_by_timeframe (rows : List ChartRow) (tf : String) : List ChartAggRow :=
  resampleAgg (timeframeKey tf) rows

/-- The frequency choice of `aggregate_by_timeframe` in
`4_🔎Monitoring_ITS_Tokens.py`: the `"day"` branch resamples by `'M'`
(its `resample('D')` line is commented out), `week → W-MON`, `month → M`,
anything else `D`. -/
def timeframeKeyMon (tf : String) : ℕ → ℕ :=
  if tf = "day" then monthKey
  else if tf = "week" then weekKey
  else if tf = "month" then monthKey
  else dayKey

def aggregate_by_timeframe_mon (rows : List ChartRow) (tf : String) : List ChartAggRow :=
  resampleAgg (timeframeKeyMon tf) rows

lemma dateOfDay_month_le (n : ℕ) : (dateOfDay n).month ≤ 12 := by
  induction n with
  | zero => decide
  | succ k ih =>
    show (nextDate (dateOfDay k)).month ≤ 12
    rw [nextDate]
    split_ifs <;> simp <;> omega

lemma monthIdx_le_nextDate (d : Date) (hm : d.month ≤ 12) :
    monthIdx d ≤ monthIdx (nextDate d) := by
  rw [nextDate]
  split_ifs with h1 h2
  · simp [monthIdx]
  · simp only [monthIdx]
    omega
  · simp only [monthIdx]
    omega

lemma monthIdx_dateOfDay_mono {a b : ℕ} (hab : a ≤ b) :
    monthIdx (dateOfDay a) ≤ monthIdx (dateOfDay b) := by
  induction b with
  | zero => cases Nat.le_zero.mp hab; exact le_refl _
  | succ n ih =>
    rcases Nat.lt_or_ge a (n + 1) with h | h
    · exact le_trans (ih (Nat.lt_succ_iff.mp h))
        (monthIdx_le_nextDate _ (dateOfDay_month_le n))
    · have : a = n + 1 := le_antisymm hab h
      rw [this]

lemma timeframeKey_mono (tf : String) {a b : ℕ} (hab : a ≤ b) :
    timeframeKey tf a ≤ timeframeKey tf b := by
  have hd : dayKey a ≤ dayKey b := Nat.div_le_div_right hab
  rw [timeframeKey]
  split_ifs
  · exact hd
  · exact Nat.div_le_div_right (by omega)
  · exact monthIdx_dateOfDay_mono (Nat.div_le_div_right hab)
  · exact hd

lemma foldl_min_le_init (l : List ℕ) (a : ℕ) : l.foldl min a ≤ a := by
  induction l generalizing a with
  | nil => exact le_refl a
  | cons x t ih => exact le_trans (ih (min a x)) (min_le_left a x)

lemma foldl_min_le_mem (l : List ℕ) (a : ℕ) : ∀ x ∈ l, l.foldl min a ≤ x := by
  induction l generalizing a with
  | nil => intro x hx; cases hx
  | cons y t ih =>
    intro x hx
    rcases List.mem_cons.mp hx with rfl | hx2
    · exact le_trans (foldl_min_le_init t (min a x)) (min_le_right a x)
    · exact ih (min a y) x hx2

lemma init_le_foldl_max (l : List ℕ) (a : ℕ) : a ≤ l.foldl max a := by
  induction l generalizing a with
  | nil => exact le_refl a
  | cons x t ih => exact le_trans (le_max_left a x) (ih (max a x))

lemma mem_le_foldl_max (l : List ℕ) (a : ℕ) : ∀ x ∈ l, x ≤ l.foldl max a := by
  induction l generalizing a with
  | nil => intro x hx; cases hx
  | cons y t ih =>
    intro x hx
    rcases List.mem_cons.mp hx with rfl | hx2
    · exact le_trans (le_max_right a x) (init_le_foldl_max t (max a x))
    · exact ih (max a y) x hx2

/-- C5 amended: in the test page (`5_📖test.py`), for each of the three
granularities the aggregation emits duplicate-free bucket keys covering the
bucket of every input row (resample also emits zero rows for the empty
buckets between the first and last), and every bucket row holds the sums over
exactly the input rows whose own timestamp truncates to that bucket.  In
`4_🔎Monitoring_ITS_Tokens.py` however the `"day"` granularity aggregates by
calendar month: it produces identically the same table as `"month"`. -/
theorem c5_time_buckets_amended (tf : String) (rows : List ChartRow)
    (hne : rows ≠ [])
    (_htf : tf = "day" ∨ tf = "week" ∨ tf = "month") :
    (((aggregate_by_timeframe rows tf).map (·.bucket)).Nodup ∧
     (∀ r ∈ rows,
       timeframeKey tf r.ts ∈ (aggregate_by_timeframe rows tf).map (·.bucket)) ∧
     (∀ o ∈ aggregate_by_timeframe rows tf,
       o.num_txs = ((rows.filter
         (fun r => timeframeKey tf r.ts = o.bucket)).map (·.num_txs)).sum ∧
       o.volume = ((rows.filter
         (fun r => timeframeKey tf r.ts = o.bucket)).map (·.volume)).sum)) ∧
    (∀ rows2 : List ChartRow,
      aggregate_by_timeframe_mon rows2 "day"
        = aggregate_by_timeframe_mon rows2 "month") := by
  constructor
  · match rows, hne with
    | r0 :: rest, _ =>
      have hmin_le : ∀ r ∈ r0 :: rest,
          ((r0 :: rest).map (·.ts)).foldl min r0.ts ≤ r.ts := by
        intro r hr
        exact foldl_min_le_mem _ _ _ (List.mem_map_of_mem (·.ts) hr)
      have hle_max : ∀ r ∈ r0 :: rest,
          r.ts ≤ ((r0 :: rest).map (·.ts)).foldl max r0.ts := by
        intro r hr
        exact mem_le_foldl_max _ _ _ (List.mem_map_of_mem (·.ts) hr)
      have hkk : timeframeKey tf (((r0 :: rest).map (·.ts)).foldl min r0.ts)
          ≤ timeframeKey tf (((r0 :: rest).map (·.ts)).foldl max r0.ts) :=
        timeframeKey_mono tf
          (le_trans (hmin_le r0 (List.mem_cons_self r0 rest))
            (hle_max r0 (List.mem_cons_self r0 rest)))
      have hagg : aggregate_by_timeframe (r0 :: rest) tf
          = (List.range' (timeframeKey tf (((r0 :: rest).map (·.ts)).foldl min r0.ts))
              (timeframeKey tf (((r0 :: rest).map (·.ts)).foldl max r0.ts) + 1
                - timeframeKey tf (((r0 :: rest).map (·.ts)).foldl min r0.ts))).map
              (fun b =>
                { bucket := b
                  num_txs := (((r0 :: rest).filter
                    (fun r => timeframeKey tf r.ts = b)).map (·.num_txs)).sum
                  volume := (((r0 :: rest).filter
                    (fun r => timeframeKey tf r.ts = b)).map (·.volume)).sum }) := rfl
      have hbuckets : (aggregate_by_timeframe (r0 :: rest) tf).map (·.bucket)
          = List.range' (timeframeKey tf (((r0 :: rest).map (·.ts)).foldl min r0.ts))
              (timeframeKey tf (((r0 :: rest).map (·.ts)).foldl max r0.ts) + 1
                - timeframeKey tf (((r0 :: rest).map (·.ts)).foldl min r0.ts)) := by
        rw [hagg, List.map_map]
        have hid : ∀ b ∈ List.range'
            (timeframeKey tf (((r0 :: rest).map (·.ts)).foldl min r0.ts))
            (timeframeKey tf (((r0 :: rest).map (·.ts)).foldl max r0.ts) + 1
              - timeframeKey tf (((r0 :: rest).map (·.ts)).foldl min r0.ts)),
            ((fun o : ChartAggRow => o.bucket) ∘ (fun b =>
              ({ bucket := b
                 num_txs := (((r0 :: rest).filter
                   (fun r => timeframeKey tf r.ts = b)).map (·.num_txs)).sum
                 volume := (((r0 :: rest).filter
                   (fun r => timeframeKey tf r.ts = b)).map (·.volume)).sum }
                : ChartAggRow))) b = (fun b : ℕ => b) b :=
          fun b _ => rfl
        rw [List.map_congr_left hid]
        exact List.map_id' _
      refine ⟨?_, ?_, ?_⟩
      · rw [hbuckets]
        exact List.nodup_range' _ _
      · intro r hr
        rw [hbuckets]
        have h1 := timeframeKey_mono tf (hmin_le r hr)
        have h2 := timeframeKey_mono tf (hle_max r hr)
        simp only [List.mem_range'_1]
        omega
      · intro o ho
        rw [hagg] at ho
        rcases List.mem_map.mp ho with ⟨b, _, rfl⟩
        exact ⟨rfl, rfl⟩
  · intro rows2
    have hk : timeframeKeyMon "day" = timeframeKeyMon "month" := by
      simp +decide [timeframeKeyMon]
    rw [aggregate_by_timeframe_mon, aggregate_by_timeframe_mon, hk]

/-- Two rows on consecutive calendar days of January 1970. -/
def c5Rows : List ChartRow := [⟨0, 1, 1⟩, ⟨86400, 2, 3⟩]

/-- C5 counterexample: in `4_🔎Monitoring_ITS_Tokens.py`, granularity
`"day"` on two rows with DIFFERENT calendar days produces a SINGLE output
row (their common month bucket) instead of one row per calendar day — the
rows are not bucketed at the day truncation of their own timestamps. -/
theorem c5_day_resamples_month_counterexample :
    (aggregate_by_timeframe_mon c5Rows "day").length = 1 ∧
    ((c5Rows.map (fun r => dayKey r.ts)).dedup).length = 2 := by
  constructor
  · decide
  · decide

/-- Witness for the amended C5 on `c5Rows` at granularity `"day"`. -/
theorem c5_time_buckets_amended_witness :
    c5Rows ≠ [] ∧
    ((aggregate_by_timeframe c5Rows "day").map (·.bucket)).Nodup ∧
    timeframeKey "day" 0 ∈ (aggregate_by_timeframe c5Rows "day").map (·.bucket) := by
  have h := c5_time_buckets_amended "day" c5Rows (by simp [c5Rows]) (Or.inl rfl)
  exact ⟨by simp [c5Rows], h.1.1, h.1.2.1 ⟨0, 1, 1⟩ (by simp [c5Rows])⟩

end ITS
